import Mathlib

/-!
Verification of the column-resolution-and-normalization core of `igpet.py`
(function `pm_norm`, helper `camel`, preset element lists `ree` and
`extended`).

Modelling conventions (shallow embedding):
* Numeric cell values are rationals (`ℚ`); the Python code uses floats, and
  all algebraic claims are settled in exact arithmetic.
* A pandas `DataFrame` of observations is a column-name list together with
  labeled rows (index label paired with the values, parallel to the
  columns).
* The normalizing table (`bse`, or a user-supplied `norm_vals` frame) is an
  ordered association list from index label (element abbreviation) to the
  first data column's value, matching `norm_vals.loc[k].values[0]`.
* Python exceptions that can escape `pm_norm` are modelled by `Except`:
  `typeError` for membership tests `x in s.index` when `s` is still a
  string (`str.index` is a method, not a container), `indexError` for
  `camel("")` (`el[0]` on an empty string), `keyError` for a failed `.loc`.
* `pm_norm` falling through to `return norm_df` with `norm_df` unbound
  raises `NameError`, which the source catches and turns into a bare
  `return None`; that path is reached exactly when no requested column
  survives, and is modelled by the distinguished result
  `PmResult.noMatchingColumns`.
* Character case maps model Python's `str.upper`/`str.lower` on the ASCII
  letters (element abbreviations are ASCII); `Char.toUpper`/`Char.toLower`
  from core Lean implement exactly that mapping.
* The built-in `bse` table is loaded from `include/bse.csv` at module
  import, outside this core; it is passed to the model as the parameter
  `bseT` and quantified over in the theorems.
* For the frame/no-mutation claim, a second embedding `pm_normHeap` runs
  the same code over an explicit store of frames, with pandas column
  selection and arithmetic allocating fresh frames and the single in-place
  write (`norm_df.columns = ...`) hitting the freshly allocated frame.
-/

namespace Igpet

/-- The 25-element extended normalization preset of `igpet.py` (module-level
`extended` list, modified after Hofmann 1997). -/
def extended : List String :=
  ["Cs", "Rb", "Ba", "Th",
   "Nb", "U", "La", "Ce",
   "Pb", "Nd", "Sr", "Sm",
   "Zr", "Hf", "Eu", "Gd",
   "Tb", "Dy", "Er", "Y",
   "Yb", "Lu", "Sc", "Cr",
   "Ni"]

/-- The 15-element rare-earth preset of `igpet.py` (module-level `ree`
list, lanthanides sorted by increasing atomic number). -/
def ree : List String :=
  ["La", "Ce", "Pr", "Pm",
   "Nd", "Sm", "Eu", "Gd",
   "Tb", "Dy", "Ho", "Er",
   "Tm", "Yb", "Lu"]

/-- Python `s.lower()` on ASCII text: lowercase every character.  Defined
on the character list directly so that it evaluates by kernel reduction. -/
def pyLower (s : String) : String := String.mk (s.data.map Char.toLower)

/-- `camel` from `igpet.py`: `el[0].upper() + el[1:].lower()`.
`none` models the `IndexError` that `el[0]` raises on the empty string. -/
def camel (el : String) : Option String :=
  match el.data with
  | [] => none
  | c :: cs => some (String.mk (c.toUpper :: cs.map Char.toLower))

/-- Total version of `camel` used in theorem statements; agrees with
`camel` on every non-empty string. -/
def camelD (el : String) : String :=
  (camel el).getD ""

/-- An observation table: pandas DataFrame with named columns and rows
carrying an index label (`Nat`) and one value per column. -/
structure DataFrame where
  cols : List String
  rows : List (Nat × List ℚ)
  deriving Repr, DecidableEq

/-- A normalizing-values table (`bse`, or a user-supplied `norm_vals`):
index labels paired with the first data column's value. -/
abbrev RefTable := List (String × ℚ)

/-- Position of a column label in the frame, as used by pandas column
selection (first occurrence). -/
def DataFrame.colIdx (df : DataFrame) (c : String) : Nat :=
  (df.cols.findIdx? (fun x => x == c)).getD 0

/-- Value of row `k` at column `c` (0 when out of range, which no
reachable call performs). -/
def DataFrame.cell (df : DataFrame) (k : Nat) (c : String) : ℚ :=
  ((df.rows.getD k (0, [])).2).getD (df.colIdx c) 0

/-- `df[subset_cols]`: a fresh frame holding the requested columns in the
requested order. -/
def DataFrame.select (df : DataFrame) (sc : List String) : DataFrame :=
  { cols := sc,
    rows := df.rows.map (fun r => (r.1, sc.map (fun c => r.2.getD (df.colIdx c) 0))) }

/-- `df_to_norm / normers`: elementwise division of each row by the
positionally aligned normalizing vector (numpy broadcasting across
columns). -/
def DataFrame.divide (df : DataFrame) (normers : List ℚ) : DataFrame :=
  { cols := df.cols,
    rows := df.rows.map (fun r => (r.1, r.2.zipWith (fun v n => v / n) normers)) }

/-- The `cols` argument of `pm_norm`: a string or a list of strings
(`type(cols) is str` dispatch in the source). -/
inductive ColsSpec
  | str (s : String)
  | list (l : List String)
  deriving Repr, DecidableEq

/-- The `norm_vals` argument of `pm_norm`: a preset-name string or an
actual normalizing table (`type(norm_vals) is str` dispatch). -/
inductive NormSpec
  | str (s : String)
  | table (t : RefTable)
  deriving Repr, DecidableEq

/-- Python exceptions that can escape `pm_norm`. -/
inductive PmErr
  | typeError
  | indexError
  | keyError
  deriving Repr, DecidableEq

/-- Observable outcome of a `pm_norm` call: a returned table, the bare
`None` return reached when no requested column survives resolution, or an
uncaught exception. -/
inductive PmResult
  | table (t : DataFrame)
  | noMatchingColumns
  | raised (e : PmErr)
  deriving Repr, DecidableEq

/-- Does the reference table's index contain `k`
(`k in norm_vals.index` once `norm_vals` is a frame)? -/
def refHas (t : RefTable) (k : String) : Bool :=
  t.any (fun p => p.1 == k)

/-- First value stored under index label `k`
(`norm_vals.loc[k].values[0]`); 0 when absent (no reachable call). -/
def refVal (t : RefTable) (k : String) : ℚ :=
  (List.lookup k t).getD 0

/-- `x in norm_vals.index` while `norm_vals` may still be a string: on a
string, `.index` is the `str.index` method and the membership test raises
`TypeError`. -/
def nvContains (nv : NormSpec) (k : String) : Except PmErr Bool :=
  match nv with
  | .str _ => .error .typeError
  | .table t => .ok (refHas t k)

/-- `norm_vals.loc[k].values[0]` while `norm_vals` may still be a string:
`KeyError` when the label is absent, `TypeError` on a string. -/
def nvLoc (nv : NormSpec) (k : String) : Except PmErr ℚ :=
  match nv with
  | .str _ => .error .typeError
  | .table t =>
    match List.lookup k t with
    | some v => .ok v
    | none => .error .keyError

/-- Left-to-right effectful map, modelling a Python list comprehension
whose element expressions may raise. -/
def mapE {α β : Type} (f : α → Except PmErr β) : List α → Except PmErr (List β)
  | [] => .ok []
  | i :: rest =>
    match f i with
    | .error e => .error e
    | .ok v =>
      match mapE f rest with
      | .error e => .error e
      | .ok tail => .ok (v :: tail)

/-- The marking comprehension of lines 180-181 of `igpet.py`:
`[i if camel(i) in norm_vals.index and i in df.columns else None for i in cols]`.
(The discarded comprehension of lines 176-177 evaluates `camel(i)` and the
same membership test first, so it raises exactly when this one does.) -/
def markCols (nv : NormSpec) (dfCols : List String) (cols : List String) :
    Except PmErr (List (Option String)) :=
  mapE (fun i =>
    match camel i with
    | none => Except.error PmErr.indexError
    | some ci =>
      match nvContains nv ci with
      | .error e => Except.error e
      | .ok b => Except.ok (if b && dfCols.contains i then some i else none)) cols

/-- Python truthiness test `any(subset_cols)` over a list of
strings-or-`None`: an element counts iff it is a non-empty string. -/
def pyAny (xs : List (Option String)) : Bool :=
  xs.any (fun x => !((x.getD "") == ""))

/-- Lines 183-209 of `igpet.py`: `any(subset_cols)` decides between the
flag `False` (modelled `none`) and the marked list with its `None` entries
popped out. -/
def subsetOf (marked : List (Option String)) : Option (List String) :=
  if pyAny marked then some (marked.filterMap id) else none

/-- Lines 216-230 of `igpet.py`: select the surviving columns, build the
`normers` vector, divide, and rename the columns of the fresh result frame
to camel case. -/
def normalizeStep (nv : NormSpec) (df : DataFrame) (sc : List String) :
    Except PmErr DataFrame :=
  let dfToNorm := df.select sc
  match mapE (fun i =>
      match camel i with
      | none => Except.error PmErr.indexError
      | some ci => nvLoc nv ci) sc with
  | .error e => .error e
  | .ok normers =>
    let normDf := dfToNorm.divide normers
    match mapE (fun i =>
        match camel i with
        | none => Except.error PmErr.indexError
        | some ci => Except.ok ci) normDf.cols with
    | .error e => .error e
    | .ok newCols => .ok { normDf with cols := newCols }

/-- Lines 153-165 of `igpet.py`: turn a string `cols` into a list (or the
flag `False`, modelled as `none`).  The single-abbreviation branch tests
the LITERAL string against `norm_vals.index`, with `norm_vals` not yet
resolved from its own string form. -/
def colsResolveE (nv : NormSpec) (cols : ColsSpec) :
    Except PmErr (Option (List String)) :=
  match cols with
  | .str s =>
    if pyLower s == "ree" then .ok (some ree)
    else if pyLower s == "extended" then .ok (some extended)
    else
      match nvContains nv s with
      | .error e => .error e
      | .ok b => .ok (if b then some [s] else none)
  | .list l => .ok (some l)

/-- Lines 168-172 of `igpet.py`: resolve a string `norm_vals` to the
built-in `bse` table; any other string passes through unresolved. -/
def nvResolve (bseT : RefTable) (norm_vals : NormSpec) : NormSpec :=
  match norm_vals with
  | .str s => if pyLower s == "bse" then .table bseT else .str s
  | .table t => .table t

/-- Lines 215-236 of `igpet.py`: `if subset_cols:` (non-empty list is
truthy) then normalize; otherwise `norm_df` is unbound, the `NameError` is
caught, and the function returns `None`. -/
def normPhase (nv : NormSpec) (df : DataFrame) (subset : Option (List String)) :
    Except PmErr (Option DataFrame) :=
  match subset with
  | some (c2 :: cs2) =>
    match normalizeStep nv df (c2 :: cs2) with
    | .error e => .error e
    | .ok t => .ok (some t)
  | _ => .ok none

/-- The body of `pm_norm` (lines 150-236 of `igpet.py`), with the built-in
`bse` table passed in as `bseT`.  `Except.ok none` is the bare `None`
return; the `squeeze` and `interp` parameters are accepted exactly as in
the source, whose body never reads them. -/
def pm_normE (bseT : RefTable) (df : DataFrame) (cols : ColsSpec)
    (squeeze : Bool) (interp : Bool) (norm_vals : NormSpec) :
    Except PmErr (Option DataFrame) :=
  match colsResolveE norm_vals cols with
  | .error e => .error e
  | .ok colsR =>
    let nv : NormSpec := nvResolve bseT norm_vals
    match colsR with
    | some (c :: cs) =>
      match markCols nv df.cols (c :: cs) with
      | .error e => .error e
      | .ok marked =>
        normPhase nv df (subsetOf marked)
    | _ => .ok none

/-- `pm_norm` as observed by a caller.  The source's defaults are
`cols = "ree"`, `squeeze = True`, `interp = False`, `norm_vals = "bse"`. -/
def pm_norm (bseT : RefTable) (df : DataFrame) (cols : ColsSpec)
    (squeeze : Bool) (interp : Bool) (norm_vals : NormSpec) : PmResult :=
  match pm_normE bseT df cols squeeze interp norm_vals with
  | .ok (some t) => .table t
  | .ok none => .noMatchingColumns
  | .error e => .raised e

/-- A store of pandas objects for the frame/no-mutation claim: observation
frames and reference tables addressed by position.  Python variables hold
addresses; the caller's input frame and the module-global `bse` live
here. -/
structure Store where
  dfs : List DataFrame
  refs : List RefTable
  deriving Repr, DecidableEq

/-- Read the frame at address `a`. -/
def Store.getDf (st : Store) (a : Nat) : DataFrame := st.dfs.getD a ⟨[], []⟩

/-- Read the reference table at address `a`. -/
def Store.getRef (st : Store) (a : Nat) : RefTable := st.refs.getD a []

/-- Allocate a fresh frame (pandas column selection and arithmetic return
new objects). -/
def Store.allocDf (st : Store) (d : DataFrame) : Store × Nat :=
  ({ st with dfs := st.dfs ++ [d] }, st.dfs.length)

/-- Overwrite the frame at address `a` (the in-place
`norm_df.columns = ...` assignment). -/
def Store.setDf (st : Store) (a : Nat) (d : DataFrame) : Store :=
  { st with dfs := st.dfs.set a d }

/-- The `norm_vals` argument in the store model: a preset-name string or
the address of a reference table. -/
inductive NormArg
  | str (s : String)
  | table (a : Nat)
  deriving Repr, DecidableEq

/-- Dereference a `NormArg` against the store (reference tables are only
ever read, never written, during a `pm_norm` call). -/
def nvOfArg (st : Store) (nv : NormArg) : NormSpec :=
  match nv with
  | .str s => .str s
  | .table a => .table (st.getRef a)

/-- Store-level version of `normalizeStep`: `df[subset_cols]` allocates a
copy, the division allocates the result frame, and the column assignment
writes in place to that freshly allocated frame.  On an uncaught
exception the store keeps whatever was allocated before the raise, as in
Python. -/
def normalizeStepH (st : Store) (nv : NormSpec) (df : DataFrame)
    (sc : List String) : Store × Except PmErr Nat :=
  let s1 := st.allocDf (df.select sc)
  match mapE (fun i =>
      match camel i with
      | none => Except.error PmErr.indexError
      | some ci => nvLoc nv ci) sc with
  | .error e => (s1.1, .error e)
  | .ok normers =>
    let s2 := s1.1.allocDf ((s1.1.getDf s1.2).divide normers)
    match mapE (fun i =>
        match camel i with
        | none => Except.error PmErr.indexError
        | some ci => Except.ok ci) (s2.1.getDf s2.2).cols with
    | .error e => (s2.1, .error e)
    | .ok newCols =>
      (s2.1.setDf s2.2 { s2.1.getDf s2.2 with cols := newCols }, .ok s2.2)

/-- Store-level version of `normPhase`. -/
def normPhaseH (st : Store) (nv : NormSpec) (df : DataFrame)
    (subset : Option (List String)) : Store × Except PmErr (Option Nat) :=
  match subset with
  | some (c2 :: cs2) =>
    match normalizeStepH st nv df (c2 :: cs2) with
    | (st2, .error e) => (st2, .error e)
    | (st2, .ok a) => (st2, .ok (some a))
  | _ => (st, .ok none)

/-- Store-level version of `nvResolve`: the module-global `bse` lives at
address `bseA`. -/
def nvResolveArg (bseA : Nat) (norm_vals : NormArg) : NormArg :=
  match norm_vals with
  | .str s => if pyLower s == "bse" then .table bseA else .str s
  | .table a => .table a

/-- `pm_norm` over the explicit store: the caller's observation frame is
at `dfA`, the built-in `bse` table at `bseA`.  The resolution phases only
read; all writes happen in `normalizeStepH`. -/
def pm_normHeap (st : Store) (bseA : Nat) (dfA : Nat) (cols : ColsSpec)
    (squeeze : Bool) (interp : Bool) (norm_vals : NormArg) :
    Store × Except PmErr (Option Nat) :=
  let df := st.getDf dfA
  match colsResolveE (nvOfArg st norm_vals) cols with
  | .error e => (st, .error e)
  | .ok colsR =>
    let nv : NormArg := nvResolveArg bseA norm_vals
    match colsR with
    | some (c :: cs) =>
      match markCols (nvOfArg st nv) df.cols (c :: cs) with
      | .error e => (st, .error e)
      | .ok marked => normPhaseH st (nvOfArg st nv) df (subsetOf marked)
    | _ => (st, .ok none)

/-- The per-entry survival test of lines 180-181, for non-empty entries:
canonical form is a reference-table key and the literal entry is among the
observation columns. -/
def keeps (rt : RefTable) (dfCols : List String) (i : String) : Bool :=
  refHas rt (camelD i) && dfCols.contains i

/-- The entries of a requested list that survive the intersection with the
reference keys and the observation columns, in requested order. -/
def survivors (rt : RefTable) (dfCols : List String) (l : List String) :
    List String :=
  l.filter (keeps rt dfCols)

/-- The list that a `cols` spec resolves to at lines 153-165, when the
reference table in force is `rt` (`none` models the flag `False`). -/
def resolveColsSpec (rt : RefTable) (c : ColsSpec) : Option (List String) :=
  match c with
  | .str s =>
    if pyLower s == "ree" then some ree
    else if pyLower s == "extended" then some extended
    else if refHas rt s then some [s] else none
  | .list l => some l

/-- Closed form of the table a successful `pm_norm` call returns when the
surviving columns are `S`: camel-cased column names, rows parallel to the
input with each value divided by the matching reference value. -/
def normTable (rt : RefTable) (df : DataFrame) (S : List String) : DataFrame :=
  { cols := S.map camelD,
    rows := df.rows.map (fun r =>
      (r.1, S.map (fun i => r.2.getD (df.colIdx i) 0 / refVal rt (camelD i)))) }

/-- Concrete reference table with `La` and `Ce` entries (primitive-mantle
style values 0.2 and 0.6). -/
def rtA : RefTable := [("La", 1/5), ("Ce", 3/5)]

/-- Concrete observation frame: one sample with `La`, `Ce`, `Sr`. -/
def dfA : DataFrame := ⟨["La", "Ce", "Sr"], [(0, [2, 3, 10])]⟩

/-- Reference table whose single `La` entry is 1. -/
def rtOne : RefTable := [("La", 1)]

/-- Reference table whose single `La` entry is 0. -/
def rtZero : RefTable := [("La", 0)]

/-- Observation frame whose single column is spelled in lowercase. -/
def dfLow : DataFrame := ⟨["la"], [(0, [2])]⟩

/-- Observation frame with one `La` measurement of 3. -/
def dfLa3 : DataFrame := ⟨["La"], [(0, [3])]⟩

theorem camel_of_ne (s : String) (h : s ≠ "") : camel s = some (camelD s) := by
  cases s with
  | mk data =>
    cases data with
    | nil => exact absurd rfl h
    | cons c cs => simp [camel, camelD]

theorem mapE_ok (f : α → Except PmErr β) (g : α → β) (l : List α)
    (h : ∀ a ∈ l, f a = .ok (g a)) : mapE f l = .ok (l.map g) := by
  induction l with
  | nil => simp [mapE]
  | cons a l ih =>
    have ha := h a (by simp)
    have ih2 := ih (fun b hb => h b (by simp [hb]))
    simp [mapE, ha, ih2]

theorem markCols_ok (rt : RefTable) (dcols : List String) (l : List String)
    (h : ∀ i ∈ l, i ≠ "") :
    markCols (.table rt) dcols l
      = .ok (l.map (fun i => if keeps rt dcols i then some i else none)) := by
  apply mapE_ok
  intro i hi
  rw [camel_of_ne i (h i hi)]
  simp [nvContains, keeps]

theorem zipWith_map_same (f : β → γ → δ) (g : α → β) (h : α → γ) (l : List α) :
    List.zipWith f (l.map g) (l.map h) = l.map (fun x => f (g x) (h x)) := by
  induction l with
  | nil => rfl
  | cons a l ih => simp [ih]

theorem lookup_of_refHas (rt : RefTable) (k : String) (h : refHas rt k = true) :
    List.lookup k rt = some (refVal rt k) := by
  induction rt with
  | nil => simp [refHas] at h
  | cons p rt ih =>
    by_cases hk : p.1 = k
    · simp [List.lookup, refVal, hk.symm]
    · have h2 : refHas rt k = true := by
        simp [refHas] at h ⊢
        rcases h with h | h
        · exact absurd h hk
        · exact h
      have hne : (k == p.1) = false := beq_eq_false_iff_ne.mpr (fun e => hk e.symm)
      simp [List.lookup, hne, refVal] at ih ⊢
      exact ih h2

theorem nvLoc_of_refHas (rt : RefTable) (k : String) (h : refHas rt k = true) :
    nvLoc (.table rt) k = .ok (refVal rt k) := by
  simp [nvLoc, lookup_of_refHas rt k h]

theorem filterMap_marks (p : String → Bool) (l : List String) :
    (l.map (fun i => if p i then some i else none)).filterMap id = l.filter p := by
  induction l with
  | nil => rfl
  | cons a l ih =>
    by_cases hp : p a <;> simp [hp, ih, List.filter_cons]

theorem pyAny_marks (p : String → Bool) (l : List String) (h : ∀ i ∈ l, i ≠ "") :
    pyAny (l.map (fun i => if p i then some i else none)) = !(l.filter p).isEmpty := by
  induction l with
  | nil => rfl
  | cons a l ih =>
    have ha : (a == "") = false := beq_eq_false_iff_ne.mpr (h a (by simp))
    have ih2 := ih (fun b hb => h b (by simp [hb]))
    by_cases hp : p a <;>
      simp [pyAny, List.filter_cons, hp, ha, List.isEmpty_iff] at ih2 ⊢ <;>
      simp [ih2]

theorem normalizeStep_ok (rt : RefTable) (df : DataFrame) (sc : List String)
    (hne : ∀ i ∈ sc, i ≠ "")
    (hrt : ∀ i ∈ sc, refHas rt (camelD i) = true) :
    normalizeStep (.table rt) df sc = .ok (normTable rt df sc) := by
  have hnormers : mapE (fun i =>
      match camel i with
      | none => Except.error PmErr.indexError
      | some ci => nvLoc (.table rt) ci) sc
      = .ok (sc.map (fun i => refVal rt (camelD i))) := by
    apply mapE_ok
    intro i hi
    rw [camel_of_ne i (hne i hi)]
    exact nvLoc_of_refHas rt (camelD i) (hrt i hi)
  have hcols : mapE (fun i =>
      match camel i with
      | none => Except.error PmErr.indexError
      | some ci => Except.ok ci) sc = .ok (sc.map camelD) := by
    apply mapE_ok
    intro i hi
    rw [camel_of_ne i (hne i hi)]
  simp only [normalizeStep, DataFrame.select, DataFrame.divide, hnormers, hcols]
  simp [normTable, zipWith_map_same, List.map_map, Function.comp]

theorem survivors_mem (rt : RefTable) (dcols : List String) (l : List String)
    (i : String) (hi : i ∈ survivors rt dcols l) :
    i ∈ l ∧ refHas rt (camelD i) = true ∧ dcols.contains i = true := by
  have h := List.mem_filter.mp hi
  refine ⟨h.1, ?_, ?_⟩
  · exact (Bool.and_eq_true_iff.mp h.2).1
  · exact (Bool.and_eq_true_iff.mp h.2).2

theorem subsetOf_marks (rt : RefTable) (dcols : List String) (l : List String)
    (h : ∀ i ∈ l, i ≠ "") :
    subsetOf (l.map (fun i => if keeps rt dcols i then some i else none))
      = if (survivors rt dcols l).isEmpty then none
        else some (survivors rt dcols l) := by
  rw [subsetOf, pyAny_marks (keeps rt dcols) l h,
    filterMap_marks (keeps rt dcols) l]
  by_cases hs : (List.filter (keeps rt dcols) l).isEmpty
  · simp [hs, survivors]
  · simp only [survivors]
    simp [hs]

theorem pm_norm_list (bseT rt : RefTable) (df : DataFrame) (L : List String)
    (sq ip : Bool) (hne : ∀ i ∈ L, i ≠ "") :
    pm_norm bseT df (.list L) sq ip (.table rt)
      = if (survivors rt df.cols L).isEmpty then .noMatchingColumns
        else .table (normTable rt df (survivors rt df.cols L)) := by
  cases L with
  | nil => simp [pm_norm, pm_normE, colsResolveE, nvResolve, survivors]
  | cons c cs =>
    have hmk := markCols_ok rt df.cols (c :: cs) hne
    have hss := subsetOf_marks rt df.cols (c :: cs) hne
    by_cases hs : (survivors rt df.cols (c :: cs)).isEmpty
    · rw [if_pos hs] at hss
      simp only [pm_norm, pm_normE, colsResolveE, nvResolve, hmk, hss]
      simp [normPhase, hs]
    · rw [if_neg hs] at hss
      cases hsv : survivors rt df.cols (c :: cs) with
      | nil => rw [hsv] at hs; simp at hs
      | cons s ss =>
        have hns := normalizeStep_ok rt df (s :: ss)
          (fun i hi => hne i (survivors_mem rt df.cols (c :: cs) i (hsv ▸ hi)).1)
          (fun i hi => (survivors_mem rt df.cols (c :: cs) i (hsv ▸ hi)).2.1)
        rw [hsv] at hss
        simp only [pm_norm, pm_normE, colsResolveE, nvResolve, hmk, hss]
        simp [normPhase, hns, hs, hsv]

theorem pm_norm_resolve (bseT rt : RefTable) (df : DataFrame) (c : ColsSpec)
    (sq ip : Bool) (L : List String) (h : resolveColsSpec rt c = some L) :
    pm_norm bseT df c sq ip (.table rt)
      = pm_norm bseT df (.list L) sq ip (.table rt) := by
  cases c with
  | list l => simp [resolveColsSpec] at h; subst h; rfl
  | str s =>
    by_cases h1 : (pyLower s == "ree") = true
    · simp [resolveColsSpec, h1] at h
      subst h
      simp [pm_norm, pm_normE, colsResolveE, nvResolve, h1]
    · by_cases h2 : (pyLower s == "extended") = true
      · simp [resolveColsSpec, h1, h2] at h
        subst h
        simp [pm_norm, pm_normE, colsResolveE, nvResolve, h1, h2]
      · by_cases h3 : refHas rt s = true
        · simp [resolveColsSpec, h1, h2, h3] at h
          subst h
          simp [pm_norm, pm_normE, colsResolveE, nvResolve, h1, h2, nvContains, h3]
        · simp [resolveColsSpec, h1, h2, h3] at h

theorem pm_norm_resolve_none (bseT rt : RefTable) (df : DataFrame) (c : ColsSpec)
    (sq ip : Bool) (h : resolveColsSpec rt c = none) :
    pm_norm bseT df c sq ip (.table rt) = .noMatchingColumns := by
  cases c with
  | list l => simp [resolveColsSpec] at h
  | str s =>
    by_cases h1 : (pyLower s == "ree") = true
    · simp [resolveColsSpec, h1] at h
    · by_cases h2 : (pyLower s == "extended") = true
      · simp [resolveColsSpec, h1, h2] at h
      · by_cases h3 : refHas rt s = true
        · simp [resolveColsSpec, h1, h2, h3] at h
        · simp [pm_norm, pm_normE, colsResolveE, nvResolve, h1, h2, nvContains, h3]

theorem pyLower_bse : pyLower "bse" = "bse" := rfl

theorem pm_norm_default_bse (bseT : RefTable) (df : DataFrame) (c : ColsSpec)
    (sq ip : Bool)
    (hc : ∀ s, c = ColsSpec.str s →
      (pyLower s == "ree") = true ∨ (pyLower s == "extended") = true) :
    pm_norm bseT df c sq ip (.str "bse")
      = pm_norm bseT df c sq ip (.table bseT) := by
  cases c with
  | list l => rfl
  | str s =>
    rcases hc s rfl with h1 | h2
    · have h1e : pyLower s = "ree" := by simpa using h1
      simp [pm_norm, pm_normE, colsResolveE, nvResolve, h1e, pyLower_bse]
    · have h2e : pyLower s = "extended" := by simpa using h2
      by_cases h1 : pyLower s = "ree"
      · simp [pm_norm, pm_normE, colsResolveE, nvResolve, h1, pyLower_bse]
      · simp [pm_norm, pm_normE, colsResolveE, nvResolve, h1, h2e, pyLower_bse]

theorem set_append_two {α : Type} (l : List α) (a b c : α) :
    ((l ++ [a]) ++ [b]).set (l.length + 1) c = l ++ [a, c] := by
  induction l with
  | nil => rfl
  | cons x l ih => simp [ih]

theorem normalizeStepH_frames (st : Store) (nv : NormSpec) (df : DataFrame)
    (sc : List String) :
    ∃ extra, (normalizeStepH st nv df sc).1
      = { dfs := st.dfs ++ extra, refs := st.refs } := by
  unfold normalizeStepH Store.allocDf Store.setDf Store.getDf
  split
  · exact ⟨[df.select sc], rfl⟩
  · dsimp only
    split
    · simp
    · simp [set_append_two]

theorem normPhaseH_frames (st : Store) (nv : NormSpec) (df : DataFrame)
    (subset : Option (List String)) :
    ∃ extra, (normPhaseH st nv df subset).1
      = { dfs := st.dfs ++ extra, refs := st.refs } := by
  unfold normPhaseH
  split
  · next c2 cs2 =>
    obtain ⟨extra, he⟩ := normalizeStepH_frames st nv df (c2 :: cs2)
    split
    · next st2 e heq =>
      exact ⟨extra, by rw [← he, heq]⟩
    · next st2 a heq =>
      exact ⟨extra, by rw [← he, heq]⟩
  · exact ⟨[], by simp⟩

theorem char_toNat_ofNat_valid (n : Nat) (h : n < 55296) :
    (Char.ofNat n).toNat = n := by
  unfold Char.ofNat
  rw [dif_pos (Or.inl h)]
  rfl

theorem char_toUpper_idem (c : Char) : c.toUpper.toUpper = c.toUpper := by
  unfold Char.toUpper
  by_cases h : c.toNat ≥ 97 ∧ c.toNat ≤ 122
  · rw [if_pos h]
    have hv : (Char.ofNat (c.toNat - 32)).toNat = c.toNat - 32 := by
      apply char_toNat_ofNat_valid; omega
    rw [if_neg]
    omega
  · rw [if_neg h, if_neg h]

theorem char_toLower_idem (c : Char) : c.toLower.toLower = c.toLower := by
  unfold Char.toLower
  by_cases h : c.toNat ≥ 65 ∧ c.toNat ≤ 90
  · rw [if_pos h]
    have hv : (Char.ofNat (c.toNat + 32)).toNat = c.toNat + 32 := by
      apply char_toNat_ofNat_valid; omega
    rw [if_neg]
    omega
  · rw [if_neg h, if_neg h]

theorem pm_norm_success_core (bseT rt : RefTable) (df : DataFrame)
    (c : ColsSpec) (sq ip : Bool) (L : List String)
    (hL : resolveColsSpec rt c = some L)
    (hne : ∀ i ∈ L, i ≠ "")
    (hsv : survivors rt df.cols L ≠ []) :
    pm_norm bseT df c sq ip (NormSpec.table rt)
      = PmResult.table (normTable rt df (survivors rt df.cols L)) := by
  rw [pm_norm_resolve bseT rt df c sq ip L hL,
    pm_norm_list bseT rt df L sq ip hne]
  have he : (survivors rt df.cols L).isEmpty = false := by
    simpa [List.isEmpty_iff] using hsv
  rw [if_neg (by simp [he])]

theorem getD_map_lt {α β : Type} (f : α → β) (l : List α) (k : Nat)
    (d : β) (d2 : α) (hk : k < l.length) :
    (l.map f).getD k d = f (l.getD k d2) := by
  induction l generalizing k with
  | nil => simp at hk
  | cons a l ih =>
    cases k with
    | zero => rfl
    | succ k =>
      simp only [List.map_cons, List.getD_cons_succ]
      exact ih k (by simpa using hk)

theorem normTable_row_vals (rt : RefTable) (df : DataFrame) (S : List String)
    (k : Nat) (hk : k < df.rows.length) :
    ((normTable rt df S).rows.getD k (0, [])).2
      = S.map (fun i => df.cell k i / refVal rt (camelD i)) := by
  simp only [normTable]
  rw [getD_map_lt _ df.rows k (0, []) (0, []) hk]
  simp [DataFrame.cell]

/-- C1 counterexample: with the reference table holding the key `La`, the
single-abbreviation spec `"la"` has canonical form `La`, a reference key,
yet resolution fails (the literal string is tested, not its camel form);
passing `["la"]` as a one-element list instead succeeds.  And with
`norm_vals` left at its default preset name `"bse"`, the membership test
of line 164 runs against the unresolved string and raises `TypeError`. -/
theorem pm_norm_single_abbrev_camel_counterexample :
    camel "la" = some "La" ∧ refHas rtOne "La" = true ∧
    pm_norm rtOne dfLow (ColsSpec.str "la") true false (NormSpec.table rtOne)
      = PmResult.noMatchingColumns ∧
    pm_norm rtOne dfLow (ColsSpec.list ["la"]) true false (NormSpec.table rtOne)
      = PmResult.table ⟨["La"], [(0, [(2 : ℚ)])]⟩ ∧
    pm_norm rtOne dfLow (ColsSpec.str "La") true false (NormSpec.str "bse")
      = PmResult.raised PmErr.typeError := by
  refine ⟨by decide, by decide, by decide, ?_, by decide⟩
  simp [pm_norm, pm_normE, colsResolveE, nvResolve, markCols, mapE,
    normalizeStep, DataFrame.select, DataFrame.divide, DataFrame.colIdx,
    camel, nvContains, nvLoc, refHas, refVal, pyAny, rtOne, dfLow,
    List.lookup, subsetOf, normPhase]

/-- C1 (amended): a single non-preset abbreviation string is treated as
the one-element list `[s]` exactly when the LITERAL string is a key of the
reference table passed as `norm_vals`; otherwise resolution fails with the
no-matching-columns result.  When `norm_vals` is a string — including the
default preset name `"bse"` — the membership test raises `TypeError`
instead, because line 164 runs before `norm_vals` is resolved. -/
theorem pm_norm_single_abbrev_literal (bseT rt : RefTable) (df : DataFrame)
    (s : String) (sq ip : Bool)
    (h1 : (pyLower s == "ree") = false)
    (h2 : (pyLower s == "extended") = false) :
    (pm_norm bseT df (ColsSpec.str s) sq ip (NormSpec.table rt)
      = if refHas rt s
        then pm_norm bseT df (ColsSpec.list [s]) sq ip (NormSpec.table rt)
        else PmResult.noMatchingColumns) ∧
    ∀ nvs : String, pm_norm bseT df (ColsSpec.str s) sq ip (NormSpec.str nvs)
      = PmResult.raised PmErr.typeError := by
  have h1e : pyLower s ≠ "ree" := by simpa using h1
  have h2e : pyLower s ≠ "extended" := by simpa using h2
  constructor
  · by_cases hr : refHas rt s
    · rw [if_pos hr]
      simp [pm_norm, pm_normE, colsResolveE, nvResolve, h1e, h2e, nvContains, hr]
    · rw [if_neg hr]
      simp [pm_norm, pm_normE, colsResolveE, nvResolve, h1e, h2e, nvContains, hr]
  · intro nvs
    simp [pm_norm, pm_normE, colsResolveE, nvResolve, h1e, h2e, nvContains]

/-- C1 witness: the amended theorem evaluated at the concrete spec
`"la"` against the concrete table `rtOne`. -/
theorem pm_norm_single_abbrev_literal_witness :
    pm_norm rtOne dfLow (ColsSpec.str "la") true false (NormSpec.table rtOne)
      = if refHas rtOne "la"
        then pm_norm rtOne dfLow (ColsSpec.list ["la"]) true false (NormSpec.table rtOne)
        else PmResult.noMatchingColumns :=
  (pm_norm_single_abbrev_literal rtOne rtOne dfLow "la" true false
    (by decide) (by decide)).1

/-- C2: whenever the selection spec resolves to an empty surviving column
set (no entry passes the intersection with the observation columns and
the reference keys), `pm_norm` returns the distinguished
no-matching-columns failure (Python's bare `None` return) and never a
table, empty or otherwise.  Stated over a table-valued `norm_vals` and
over the default `"bse"` (which resolves to the built-in table before use
when the spec is a preset or a list; for a non-preset string spec the
default raises instead, see C1). -/
theorem pm_norm_empty_resolution (bseT rt : RefTable) (df : DataFrame)
    (c : ColsSpec) (sq ip : Bool) (nv : NormSpec)
    (hnv : nv = NormSpec.table rt ∨ (nv = NormSpec.str "bse" ∧ rt = bseT))
    (hstr : ∀ s, c = ColsSpec.str s → nv = NormSpec.table rt ∨
      (pyLower s == "ree") = true ∨ (pyLower s == "extended") = true)
    (hne : ∀ i ∈ (resolveColsSpec rt c).getD [], i ≠ "")
    (hempty : survivors rt df.cols ((resolveColsSpec rt c).getD []) = []) :
    pm_norm bseT df c sq ip nv = PmResult.noMatchingColumns ∧
    ∀ t, pm_norm bseT df c sq ip nv ≠ PmResult.table t := by
  have core : pm_norm bseT df c sq ip (NormSpec.table rt)
      = PmResult.noMatchingColumns := by
    cases hL : resolveColsSpec rt c with
    | none => exact pm_norm_resolve_none bseT rt df c sq ip hL
    | some L =>
      rw [hL] at hne hempty
      simp only [Option.getD_some] at hne hempty
      rw [pm_norm_resolve bseT rt df c sq ip L hL,
        pm_norm_list bseT rt df L sq ip hne]
      simp [hempty]
  have main : pm_norm bseT df c sq ip nv = PmResult.noMatchingColumns := by
    rcases hnv with h | ⟨h, hrt⟩
    · rw [h]; exact core
    · subst hrt
      have hc : ∀ s, c = ColsSpec.str s →
          (pyLower s == "ree") = true ∨ (pyLower s == "extended") = true := by
        intro s hs
        rcases hstr s hs with h2 | h2
        · rw [h] at h2; simp at h2
        · exact h2
      rw [h, pm_norm_default_bse rt df c sq ip hc]
      exact core
  exact ⟨main, fun t => by simp [main]⟩

/-- C2 witness: `cols=["Xx"]` with `Xx` absent from both the observation
columns and the reference keys yields the no-matching-columns failure. -/
theorem pm_norm_empty_resolution_witness :
    pm_norm rtA dfA (ColsSpec.list ["Xx"]) true false (NormSpec.table rtA)
      = PmResult.noMatchingColumns :=
  (pm_norm_empty_resolution rtA rtA dfA (ColsSpec.list ["Xx"]) true false
    (NormSpec.table rtA) (Or.inl rfl)
    (fun s hs => by simp at hs) (by decide) (by decide)).1

/-- C3: on every non-empty resolved intersection, the output table's
column list is the canonicalized (camel) form of the requested entries
that survive the intersection with the observation columns and the
reference keys, in the order of the selection spec. -/
theorem pm_norm_output_columns (bseT rt : RefTable) (df : DataFrame)
    (c : ColsSpec) (sq ip : Bool) (L : List String)
    (hL : resolveColsSpec rt c = some L)
    (hne : ∀ i ∈ L, i ≠ "")
    (hsv : survivors rt df.cols L ≠ []) :
    ∃ t, pm_norm bseT df c sq ip (NormSpec.table rt) = PmResult.table t ∧
      t.cols = (survivors rt df.cols L).map camelD :=
  ⟨normTable rt df (survivors rt df.cols L),
    pm_norm_success_core bseT rt df c sq ip L hL hne hsv, rfl⟩

/-- C3 witness: the requested list `["la", "Ce", "Xx"]` against `rtA` and
`dfA` keeps exactly `Ce` (in requested order, camel-cased). -/
theorem pm_norm_output_columns_witness :
    ∃ t, pm_norm rtA dfA (ColsSpec.list ["la", "Ce", "Xx"]) true false
        (NormSpec.table rtA) = PmResult.table t ∧
      t.cols = (survivors rtA dfA.cols ["la", "Ce", "Xx"]).map camelD :=
  pm_norm_output_columns rtA rtA dfA (ColsSpec.list ["la", "Ce", "Xx"])
    true false ["la", "Ce", "Xx"] rfl (by decide) (by decide)

/-- C4: at the failing input `squeeze=false, interp=true` the call neither
raises an unsupported-option error nor pads or interpolates: it returns
the very same squeezed normalized table as `squeeze=true, interp=false`,
i.e. the options are silently ignored (the source never reads them, though
its docstring promises a different shape for `squeeze=False`). -/
theorem pm_norm_unsupported_options_ignored :
    pm_norm rtOne dfLa3 (ColsSpec.list ["La"]) false true (NormSpec.table rtOne)
      = PmResult.table ⟨["La"], [(0, [(3 : ℚ)])]⟩ ∧
    pm_norm rtOne dfLa3 (ColsSpec.list ["La"]) false true (NormSpec.table rtOne)
      = pm_norm rtOne dfLa3 (ColsSpec.list ["La"]) true false (NormSpec.table rtOne) := by
  constructor
  · simp [pm_norm, pm_normE, colsResolveE, nvResolve, markCols, mapE,
      normalizeStep, DataFrame.select, DataFrame.divide, DataFrame.colIdx,
      camel, nvContains, nvLoc, refHas, refVal, pyAny, rtOne, dfLa3,
      List.lookup, subsetOf, normPhase]
  · rfl

/-- C5: every successful call returns the table whose columns are the
camel forms of the surviving requested entries, whose row labels appear in
the input's order (index alignment preserved), and whose every value is
the input value divided by the reference value of the column's canonical
form. -/
theorem pm_norm_success_values (bseT rt : RefTable) (df : DataFrame)
    (c : ColsSpec) (sq ip : Bool) (L : List String)
    (hL : resolveColsSpec rt c = some L)
    (hne : ∀ i ∈ L, i ≠ "")
    (hsv : survivors rt df.cols L ≠ []) :
    ∃ t, pm_norm bseT df c sq ip (NormSpec.table rt) = PmResult.table t ∧
      t.cols = (survivors rt df.cols L).map camelD ∧
      t.rows.map Prod.fst = df.rows.map Prod.fst ∧
      ∀ k, k < df.rows.length →
        (t.rows.getD k (0, [])).2
          = (survivors rt df.cols L).map
              (fun i => df.cell k i / refVal rt (camelD i)) := by
  refine ⟨normTable rt df (survivors rt df.cols L),
    pm_norm_success_core bseT rt df c sq ip L hL hne hsv, rfl, ?_, ?_⟩
  · simp [normTable, List.map_map, Function.comp]
  · intro k hk
    exact normTable_row_vals rt df (survivors rt df.cols L) k hk

/-- C5 witness: scenario A of the specification, `cols=["La","Ce"]`
against `rtA` and `dfA`. -/
theorem pm_norm_success_values_witness :
    ∃ t, pm_norm rtA dfA (ColsSpec.list ["La", "Ce"]) true false
        (NormSpec.table rtA) = PmResult.table t ∧
      t.cols = (survivors rtA dfA.cols ["La", "Ce"]).map camelD ∧
      t.rows.map Prod.fst = dfA.rows.map Prod.fst ∧
      ∀ k, k < dfA.rows.length →
        (t.rows.getD k (0, [])).2
          = (survivors rtA dfA.cols ["La", "Ce"]).map
              (fun i => dfA.cell k i / refVal rtA (camelD i)) :=
  pm_norm_success_values rtA rtA dfA (ColsSpec.list ["La", "Ce"])
    true false ["La", "Ce"] rfl (by decide) (by decide)

/-- C6 counterexample: with a reference value of 0 for `La`, the call
succeeds (the observed value 3 is divided by 0, giving 0 in exact
rational arithmetic; infinity in the floating-point original), and
multiplying the output by the reference value yields 0, not the original
input 3 — the round trip fails on a successful call. -/
theorem pm_norm_roundtrip_counterexample :
    pm_norm rtZero dfLa3 (ColsSpec.list ["La"]) true false (NormSpec.table rtZero)
      = PmResult.table ⟨["La"], [(0, [(0 : ℚ)])]⟩ ∧
    (0 : ℚ) * refVal rtZero (camelD "La") ≠ dfLa3.cell 0 "La" := by
  constructor
  · simp [pm_norm, pm_normE, colsResolveE, nvResolve, markCols, mapE,
      normalizeStep, DataFrame.select, DataFrame.divide, DataFrame.colIdx,
      camel, nvContains, nvLoc, refHas, refVal, pyAny, rtZero, dfLa3,
      List.lookup, subsetOf, normPhase]
  · have h1 : camelD "La" = "La" := by decide
    rw [h1]
    simp [refVal, rtZero, dfLa3, DataFrame.cell, DataFrame.colIdx, List.lookup]

/-- C6 (amended): for every successful call in which each reference value
actually used is non-zero, multiplying each output value by the reference
value of its column recovers the corresponding input value exactly (exact
rational arithmetic; the floating-point original recovers it within
rounding). -/
theorem pm_norm_roundtrip_nonzero (bseT rt : RefTable) (df : DataFrame)
    (c : ColsSpec) (sq ip : Bool) (L : List String)
    (hL : resolveColsSpec rt c = some L)
    (hne : ∀ i ∈ L, i ≠ "")
    (hsv : survivors rt df.cols L ≠ [])
    (hnz : ∀ i ∈ survivors rt df.cols L, refVal rt (camelD i) ≠ 0) :
    ∃ t, pm_norm bseT df c sq ip (NormSpec.table rt) = PmResult.table t ∧
      ∀ k, k < df.rows.length →
        List.zipWith (fun v n => v * n) (t.rows.getD k (0, [])).2
            ((survivors rt df.cols L).map (fun i => refVal rt (camelD i)))
          = (survivors rt df.cols L).map (fun i => df.cell k i) := by
  refine ⟨normTable rt df (survivors rt df.cols L),
    pm_norm_success_core bseT rt df c sq ip L hL hne hsv, ?_⟩
  intro k hk
  rw [normTable_row_vals rt df (survivors rt df.cols L) k hk]
  rw [zipWith_map_same]
  apply List.map_congr_left
  intro i hi
  exact div_mul_cancel₀ (df.cell k i) (hnz i hi)

/-- C6 witness: the round trip at scenario A, whose reference values 1/5
and 3/5 are non-zero. -/
theorem pm_norm_roundtrip_nonzero_witness :
    ∃ t, pm_norm rtA dfA (ColsSpec.list ["La", "Ce"]) true false
        (NormSpec.table rtA) = PmResult.table t ∧
      ∀ k, k < dfA.rows.length →
        List.zipWith (fun v n => v * n) (t.rows.getD k (0, [])).2
            ((survivors rtA dfA.cols ["La", "Ce"]).map
              (fun i => refVal rtA (camelD i)))
          = (survivors rtA dfA.cols ["La", "Ce"]).map
              (fun i => dfA.cell k i) :=
  pm_norm_roundtrip_nonzero rtA rtA dfA (ColsSpec.list ["La", "Ce"])
    true false ["La", "Ce"] rfl (by decide) (by decide)
    (by
      have hs : survivors rtA dfA.cols ["La", "Ce"] = ["La", "Ce"] := by decide
      rw [hs]
      intro i hi
      simp only [List.mem_cons, List.not_mem_nil, or_false] at hi
      rcases hi with rfl | rfl
      · have h1 : camelD "La" = "La" := by decide
        rw [refVal, h1]
        norm_num [List.lookup, rtA]
      · have h1 : camelD "Ce" = "Ce" := by decide
        have h2 : ("Ce" == "La") = false := by decide
        rw [refVal, h1]
        norm_num [List.lookup, rtA, h2])

/-- C7: `camel` is idempotent wherever it is defined — whenever
`camel s` returns an abbreviation `t`, applying `camel` to `t` returns
`t` again. -/
theorem camel_idem (s t : String) (h : camel s = some t) : camel t = some t := by
  cases s with
  | mk data =>
    cases data with
    | nil => simp [camel] at h
    | cons c cs =>
      simp only [camel, Option.some.injEq] at h
      subst h
      have hcomp : Char.toLower ∘ Char.toLower = Char.toLower :=
        funext char_toLower_idem
      simp [camel, char_toUpper_idem, List.map_map, hcomp]

/-- C7 witness: the idempotence theorem evaluated at `"lA"`, whose camel
form `"La"` is a fixed point of `camel`. -/
theorem camel_idem_witness : camel "La" = some "La" :=
  camel_idem "lA" "La" (by decide)

/-- C8: over the explicit store of pandas objects, every `pm_norm` call —
successful, failing, or raising — leaves the store's original frames and
every reference table untouched: the final store is exactly the initial
one extended with freshly allocated frames.  In particular the caller's
input table at `dfA` and the built-in table at `bseA` are unchanged. -/
theorem pm_norm_heap_frames (st : Store) (bseA dfA : Nat) (c : ColsSpec)
    (sq ip : Bool) (nv : NormArg) :
    ∃ extra, (pm_normHeap st bseA dfA c sq ip nv).1
      = { dfs := st.dfs ++ extra, refs := st.refs } := by
  unfold pm_normHeap
  dsimp only
  split
  · exact ⟨[], by simp⟩
  · split
    · split
      · exact ⟨[], by simp⟩
      · apply normPhaseH_frames
    · exact ⟨[], by simp⟩

/-- C9: the result of `pm_norm` does not depend on `squeeze` or `interp`;
two calls differing only in those two arguments are identical (the body
never reads either parameter). -/
theorem pm_norm_squeeze_interp_invariant (bseT : RefTable) (df : DataFrame)
    (c : ColsSpec) (nv : NormSpec) (sq1 ip1 sq2 ip2 : Bool) :
    pm_norm bseT df c sq1 ip1 nv = pm_norm bseT df c sq2 ip2 nv := rfl

/-- C10: `camel` fails on the empty string (the `el[0]` access raises
`IndexError`) and returns normally on every non-empty string. -/
theorem camel_empty_string_raises :
    camel "" = none ∧ ∀ s : String, s ≠ "" → (camel s).isSome = true := by
  refine ⟨rfl, ?_⟩
  intro s hs
  rw [camel_of_ne s hs]
  rfl

/-- C10 witness: the theorem evaluated at the non-empty abbreviation
`"Nd"`. -/
theorem camel_empty_string_raises_witness :
    camel "" = none ∧ (camel "Nd").isSome = true :=
  ⟨camel_empty_string_raises.1, camel_empty_string_raises.2 "Nd" (by decide)⟩

end Igpet
